import Mathlib

/-!
Verification development for the RAG-OA backend (src/index.js).

The two Express route handlers are embedded as pure functions over
explicit oracles for the external collaborators (PDF extractor, text
splitter, embedding provider, vector index, completion model).  Each
handler result records, besides the HTTP status and body, the calls the
handler made to the oracles, so that claims about which collaborators
were (not) invoked become provable statements.
-/

namespace RagOA

/-! ## Whitespace and text normalization (src/index.js lines 71-74) -/

/-- The character class of the JavaScript regex `\s` (also the set trimmed
by `String.prototype.trim`). -/
def isWs (c : Char) : Bool :=
  c = ' ' || c = '\t' || c = '\n' || c = '\u000B' || c = '\u000C' || c = '\r' ||
  c = '\u00A0' || c = '\u1680' || (0x2000 ≤ c.toNat && c.toNat ≤ 0x200A) ||
  c = '\u2028' || c = '\u2029' || c = '\u202F' || c = '\u205F' ||
  c = '\u3000' || c = '\uFEFF'

/-- Worker for `collapseWs`; `prevWs` records whether the previously read
character was whitespace (i.e. whether we are inside a whitespace run whose
single replacement space has already been emitted). -/
def collapseGo (prevWs : Bool) : List Char → List Char
  | [] => []
  | c :: cs =>
    if isWs c then
      if prevWs then collapseGo true cs else ' ' :: collapseGo true cs
    else c :: collapseGo false cs

/-- Models `fullText.replace(/\s+/g, " ")`: every maximal run of
whitespace is replaced by a single space. -/
def collapseWs (l : List Char) : List Char := collapseGo false l

/-- Models `fullText.replace(/(\r\n|\n|\r)/gm, " ")`: every newline (a
CRLF pair counting as one occurrence) is replaced by a single space. -/
def newlineToSpace : List Char → List Char
  | [] => []
  | [c] => if c = '\r' ∨ c = '\n' then [' '] else [c]
  | c :: d :: cs =>
    if c = '\r' ∧ d = '\n' then ' ' :: newlineToSpace cs
    else if c = '\r' ∨ c = '\n' then ' ' :: newlineToSpace (d :: cs)
    else c :: newlineToSpace (d :: cs)

/-- Models `String.prototype.trim`: remove leading and trailing
whitespace. -/
def trimWs (l : List Char) : List Char :=
  List.rdropWhile isWs (l.dropWhile isWs)

/-- The text cleanup of src/index.js lines 71-74: collapse whitespace runs
to a single space, replace newline variants by a space, then trim. -/
def normalizeText (s : String) : String :=
  ⟨trimWs (newlineToSpace (collapseWs s.data))⟩

/-! ## Text chunker

Modelled from the spec: the chunker used by the ingestion pipeline is the
external library class `RecursiveCharacterTextSplitter` (configured at
src/index.js lines 83-86 with `chunkSize: 1000, chunkOverlap: 200`), whose
code is not part of this repository.  Spec section 4.1 specifies its
behavior: consecutive windows of up to `maxSize` characters, each window
after the first beginning `overlap` characters before the end of the
previous window, the final chunk possibly shorter. -/

/-- Modelled from the spec: sliding-window chunker of section 4.1 (the
`RecursiveCharacterTextSplitter` library call is external to the repo). -/
def chunk (maxSize overlap : Nat) (text : List Char) : List (List Char) :=
  if h : text.length ≤ maxSize ∨ maxSize ≤ overlap then [text]
  else
    text.take maxSize :: chunk maxSize overlap (text.drop (maxSize - overlap))
termination_by text.length
decreasing_by
  simp only [not_or, not_le] at h
  simp only [List.length_drop]
  omega

/-- Reassembly of every chunk after the first with its leading `overlap`
characters removed. -/
def reassembleRest (overlap : Nat) : List (List Char) → List Char
  | [] => []
  | c :: cs => c.drop overlap ++ reassembleRest overlap cs

/-- Reassembly of a chunk list: the first chunk whole, every later chunk
with the `overlap` characters it shares with its predecessor removed. -/
def reassemble (overlap : Nat) : List (List Char) → List Char
  | [] => []
  | c :: cs => c ++ reassembleRest overlap cs

/-! ## Decimal rendering and upsert identifiers (src/index.js line 94) -/

/-- The decimal digit characters. -/
def digitChar (d : Nat) : Char :=
  match d with
  | 0 => '0' | 1 => '1' | 2 => '2' | 3 => '3' | 4 => '4'
  | 5 => '5' | 6 => '6' | 7 => '7' | 8 => '8' | 9 => '9'
  | _ => '*'

/-- Decimal rendering of a natural number, as JavaScript template-literal
interpolation `${n}` renders an integer. -/
def natRepr (n : Nat) : List Char :=
  if h : n < 10 then [digitChar n]
  else natRepr (n / 10) ++ [digitChar (n % 10)]
termination_by n
decreasing_by
  exact Nat.div_lt_self (by omega) (by omega)

/-- The identifier `doc-${Date.now()}-${index}` of src/index.js line 94. -/
def makeId (t index : Nat) : String :=
  "doc-" ++ ⟨natRepr t⟩ ++ "-" ++ ⟨natRepr index⟩

/-! ## Data model -/

structure PdfItem where
  str : String
deriving DecidableEq

structure PdfPage where
  content : List PdfItem
deriving DecidableEq

structure PdfData where
  pages : List PdfPage
deriving DecidableEq

/-- Lines 62-65: `data.pages.map(page => page.content.map(item => item.str).join(" ")).join("\n\n")`. -/
def fullTextOf (data : PdfData) : String :=
  String.intercalate "\n\n"
    (data.pages.map (fun page =>
      String.intercalate " " (page.content.map (fun item => item.str))))

structure EntryMeta where
  pageContent : String
deriving DecidableEq

/-- One element of the batch passed to `pineconeIndex.upsert` (lines 92-98). -/
structure UpsertEntry where
  id : String
  values : List Int
  metadata : EntryMeta
deriving DecidableEq

structure MatchMeta where
  pageContent : String
deriving DecidableEq

/-- One match returned by `pineconeIndex.query`. -/
structure QueryMatch where
  id : String
  score : Int
  metadata : MatchMeta
deriving DecidableEq

/-- The LangChain `Document` built from a match (lines 147-153). -/
structure RetrievedDoc where
  pageContent : String
  score : Int
deriving DecidableEq

/-- An HTTP response body: `res.json(...)` produces a JSON object (modelled
as its field list), `res.send(string)` produces a plain text body. -/
inductive Body where
  | json : List (String × String) → Body
  | text : String → Body
deriving DecidableEq

def Body.isJson : Body → Bool
  | .json _ => true
  | .text _ => false

/-! ## The /upload-document handler (src/index.js lines 50-119) -/

/-- External collaborators of the ingestion pipeline.  `dateNow i` is the
value `Date.now()` returns when the map callback builds entry `i`. -/
structure UploadOracles where
  extractBuffer : String → Except String PdfData
  createDocuments : String → Except String (List String)
  embedDocuments : List String → Except String (List (List Int))
  upsert : List UpsertEntry → Except String Unit
  dateNow : Nat → Nat

structure UploadResult where
  status : Nat
  body : Body
  createDocumentsCalls : List String
  upsertCalls : List (List UpsertEntry)
deriving DecidableEq

/-- The 500 body of the upload catch block (lines 113-118). -/
def uploadErr (msg : String) : Body :=
  .json [("error", "Error processing document: " ++ msg)]

/-- The `chunkEmbeddings.forEach((embedding, index) => upsertRequests[index].values = embedding)`
assignment of lines 103-105.  Writing past the end of `upsertRequests`
throws in JavaScript (property write on `undefined`), modelled as `none`. -/
def setValues : List UpsertEntry → List (List Int) → Option (List UpsertEntry)
  | entries, [] => some entries
  | [], _ :: _ => none
  | e :: es, v :: vs =>
    (setValues es vs).map (fun rest => { e with values := v } :: rest)

def uploadDocument (o : UploadOracles) (file : Option String) : UploadResult :=
  match file with
  | none => ⟨400, .text "No document uploaded.", [], []⟩
  | some buffer =>
    match o.extractBuffer buffer with
    | .error e => ⟨500, uploadErr e, [], []⟩
    | .ok data =>
      if data.pages.length > 0 then
        let fullText := normalizeText (fullTextOf data)
        match o.createDocuments fullText with
        | .error e => ⟨500, uploadErr e, [fullText], []⟩
        | .ok docs =>
          let upsertRequests := docs.mapIdx (fun index doc =>
            ({ id := makeId (o.dateNow index) index, values := [],
               metadata := ⟨doc⟩ } : UpsertEntry))
          match o.embedDocuments docs with
          | .error e => ⟨500, uploadErr e, [fullText], []⟩
          | .ok chunkEmbeddings =>
            match setValues upsertRequests chunkEmbeddings with
            | none => ⟨500, uploadErr "Cannot set properties of undefined", [fullText], []⟩
            | some batch =>
              match o.upsert batch with
              | .error e => ⟨500, uploadErr e, [fullText], [batch]⟩
              | .ok _ =>
                ⟨200, .json [("message", "Document processed and indexed successfully.")],
                 [fullText], [batch]⟩
      else ⟨500, uploadErr "No text found in PDF or PDF parsing failed.", [], []⟩

/-! ## The /ask-question handler (src/index.js lines 121-245) -/

/-- External collaborators of the answering pipeline. -/
structure AskOracles where
  embedQuery : String → Except String (List Int)
  query : List Int → Nat → Except String (List QueryMatch)
  invokeModel : String → Except String String

structure AskResult where
  status : Nat
  body : Body
  embedQueryCalls : List String
  queryCalls : List (List Int × Nat)
  modelCalls : List String
deriving DecidableEq

/-- The fixed fallback answer of lines 175-178. -/
def fallbackAnswer : String :=
  "I couldn\x27t find relevant information in the document to answer your question. Please try rephrasing or provide more context."

/-- The prompt template (lines 181-191) up to its `\x7bcontext\x7d` hole. -/
def promptHead : String :=
  "You are an intelligent assistant designed to provide answers based on the *provided context only*.\n    \n        Carefully read the following context:\n        "

/-- The prompt template between its `\x7bcontext\x7d` and `\x7bquestion\x7d` holes. -/
def promptMid : String :=
  "\n    \n        Now, please answer the user\x27s question. Answer the question as per the context, try to be intelligent and understand the question, if the information isn\x27t available in the provided context, politely state that you don\x27t have enough information from the document to answer.\n        Question: "

/-- The prompt template after its `\x7bquestion\x7d` hole. -/
def promptTail : String :=
  "\n    \n        Answer:"

/-- Rendering of the prompt template with the assembled context and the
question substituted for its two holes. -/
def renderPrompt (context question : String) : String :=
  promptHead ++ context ++ promptMid ++ question ++ promptTail

/-- The 500 body of the ask catch block (lines 239-244). -/
def askErr (msg : String) : Body :=
  .json [("error", "Error answering question: " ++ msg)]

def askQuestion (o : AskOracles) (question : Option String) : AskResult :=
  match question with
  | none => ⟨400, .text "Question is required.", [], [], []⟩
  | some q =>
    if q = "" then ⟨400, .text "Question is required.", [], [], []⟩
    else
      match o.embedQuery q with
      | .error e => ⟨500, askErr e, [q], [], []⟩
      | .ok questionEmbedding =>
        match o.query questionEmbedding 5 with
        | .error e => ⟨500, askErr e, [q], [(questionEmbedding, 5)], []⟩
        | .ok queryMatches =>
          let relevantDocs :=
            queryMatches.map (fun m => RetrievedDoc.mk m.metadata.pageContent m.score)
          if relevantDocs.length = 0 then
            ⟨200, .json [("answer", fallbackAnswer)], [q], [(questionEmbedding, 5)], []⟩
          else
            match o.embedQuery q with
            | .error e => ⟨500, askErr e, [q, q], [(questionEmbedding, 5)], []⟩
            | .ok retrieverEmbedding =>
              match o.query retrieverEmbedding 5 with
              | .error e =>
                ⟨500, askErr e, [q, q], [(questionEmbedding, 5), (retrieverEmbedding, 5)], []⟩
              | .ok docsFromRetriever =>
                let combinedContext :=
                  String.intercalate "\n\n"
                    (docsFromRetriever.map (fun d => d.metadata.pageContent))
                let prompt := renderPrompt combinedContext q
                match o.invokeModel prompt with
                | .error e =>
                  ⟨500, askErr e, [q, q],
                   [(questionEmbedding, 5), (retrieverEmbedding, 5)], [prompt]⟩
                | .ok answer =>
                  ⟨200, .json [("answer", answer)], [q, q],
                   [(questionEmbedding, 5), (retrieverEmbedding, 5)], [prompt]⟩

/-! ## Concrete collaborator instances used in witnesses and counterexamples -/

/-- Ask-side collaborators whose index returns no matches. -/
def askNoMatches : AskOracles where
  embedQuery := fun _ => .ok [0]
  query := fun _ _ => .ok []
  invokeModel := fun _ => .ok "unused"

/-- Ask-side collaborators whose index returns two matches. -/
def askTwoMatches : AskOracles where
  embedQuery := fun _ => .ok [1]
  query := fun _ _ => .ok [⟨"m1", 2, ⟨"alpha text"⟩⟩, ⟨"m2", 1, ⟨"beta text"⟩⟩]
  invokeModel := fun p => .ok ("echo: " ++ p)

/-- Upload-side collaborators: a one-page document reading hello, a
splitter returning the whole text as one chunk, all calls succeeding,
clock frozen at 7. -/
def uploadHello : UploadOracles where
  extractBuffer := fun _ => .ok ⟨[⟨[⟨"hello"⟩]⟩]⟩
  createDocuments := fun s => .ok [s]
  embedDocuments := fun ts => .ok (ts.map (fun _ => [0]))
  upsert := fun _ => .ok ()
  dateNow := fun _ => 7

/-- Like `uploadHello` but for a different document (reading world), with
the clock frozen at the same instant 7. -/
def uploadWorld : UploadOracles where
  extractBuffer := fun _ => .ok ⟨[⟨[⟨"world"⟩]⟩]⟩
  createDocuments := fun s => .ok [s]
  embedDocuments := fun ts => .ok (ts.map (fun _ => [0]))
  upsert := fun _ => .ok ()
  dateNow := fun _ => 7

/-- Upload-side collaborators whose one page contains only a single space
(a whitespace-only document); the splitter returns no chunks for empty
input, as the library splitter does. -/
def uploadBlankPage : UploadOracles where
  extractBuffer := fun _ => .ok ⟨[⟨[⟨" "⟩]⟩]⟩
  createDocuments := fun s => .ok (if s = "" then [] else [s])
  embedDocuments := fun ts => .ok (ts.map (fun _ => [0]))
  upsert := fun _ => .ok ()
  dateNow := fun _ => 0

/-- Upload-side collaborators whose extractor fails. -/
def uploadExtractFail : UploadOracles where
  extractBuffer := fun _ => .error "bad xref"
  createDocuments := fun s => .ok [s]
  embedDocuments := fun ts => .ok (ts.map (fun _ => [0]))
  upsert := fun _ => .ok ()
  dateNow := fun _ => 0

/-- Upload-side collaborators whose splitter cuts the text into two
chunks, with distinct embeddings per position. -/
def uploadTwoChunks : UploadOracles where
  extractBuffer := fun _ => .ok ⟨[⟨[⟨"hello"⟩, ⟨"world"⟩]⟩]⟩
  createDocuments := fun s => .ok [s, s]
  embedDocuments := fun ts => .ok (ts.mapIdx (fun i _ => [(i : Int)]))
  upsert := fun _ => .ok ()
  dateNow := fun _ => 7

/-- Well-formedness of one HTTP response: a 400 carries a plain-text
message, a 200 or 500 carries a single-field JSON object. -/
def wellFormedResponse (status : Nat) (body : Body) : Prop :=
  (status = 400 ∧ ∃ s, body = Body.text s) ∨
  ((status = 200 ∨ status = 500) ∧ ∃ k v, body = Body.json [(k, v)])

/-! ## Lemmas: length-based induction -/

theorem list_length_induction (P : List Char → Prop)
    (H : ∀ l, (∀ m : List Char, m.length < l.length → P m) → P l) : ∀ l, P l := by
  intro l
  generalize hn : l.length = n
  induction n using Nat.strong_induction_on generalizing l with
  | _ n ih => exact H l (fun m hm => ih m.length (hn ▸ hm) m rfl)

/-! ## Lemmas: whitespace collapsing -/

theorem collapseGo_true_eq (cs : List Char) :
    collapseGo true cs = collapseGo false (cs.dropWhile isWs) := by
  induction cs with
  | nil => rfl
  | cons c cs ih =>
    cases h : isWs c with
    | true => simp [collapseGo, h, List.dropWhile_cons, ih]
    | false => simp [collapseGo, h, List.dropWhile_cons]

theorem collapseWs_nil : collapseWs [] = [] := rfl

theorem collapseWs_cons_pos {c : Char} (cs : List Char) (h : isWs c = true) :
    collapseWs (c :: cs) = ' ' :: collapseWs (cs.dropWhile isWs) := by
  simp [collapseWs, collapseGo, h, collapseGo_true_eq]

theorem collapseWs_cons_neg {c : Char} (cs : List Char) (h : isWs c = false) :
    collapseWs (c :: cs) = c :: collapseWs cs := by
  simp [collapseWs, collapseGo, h]

theorem mem_collapseGo_ws {x : Char} :
    ∀ (b : Bool) (l : List Char), x ∈ collapseGo b l → isWs x = true → x = ' ' := by
  intro b l
  induction l generalizing b with
  | nil => intro h _; simp [collapseGo] at h
  | cons c cs ih =>
    intro hx hw
    cases h : isWs c with
    | true =>
      cases b with
      | true =>
        simp only [collapseGo, h, if_true] at hx
        exact ih true hx hw
      | false =>
        simp only [collapseGo, h, if_true, Bool.false_eq_true, if_false,
          List.mem_cons] at hx
        rcases hx with rfl | hx
        · rfl
        · exact ih true hx hw
    | false =>
      simp only [collapseGo, h, Bool.false_eq_true, if_false, List.mem_cons] at hx
      rcases hx with rfl | hx
      · rw [h] at hw; exact absurd hw (by simp)
      · exact ih false hx hw

theorem mem_collapseWs_ws {x : Char} {l : List Char} (hx : x ∈ collapseWs l)
    (hw : isWs x = true) : x = ' ' :=
  mem_collapseGo_ws false l hx hw

theorem dropWhile_collapseWs (u : List Char) :
    (collapseWs (u.dropWhile isWs)).dropWhile isWs = collapseWs (u.dropWhile isWs) := by
  cases h : u.dropWhile isWs with
  | nil => simp [collapseWs_nil]
  | cons d ds =>
    have h9 := List.head?_dropWhile_not isWs u
    rw [h] at h9
    simp only [List.head?_cons] at h9
    rw [collapseWs_cons_neg _ h9, List.dropWhile_cons]
    simp [h9]

theorem collapseWs_length_le : ∀ l : List Char, (collapseWs l).length ≤ l.length := by
  refine list_length_induction _ ?_
  intro l ih
  match l with
  | [] => simp [collapseWs_nil]
  | c :: cs =>
    have hdw : (cs.dropWhile isWs).length ≤ cs.length :=
      (List.dropWhile_suffix isWs).sublist.length_le
    cases h : isWs c with
    | true =>
      rw [collapseWs_cons_pos cs h]
      have := ih (cs.dropWhile isWs) (by simp; omega)
      simp only [List.length_cons]
      omega
    | false =>
      rw [collapseWs_cons_neg cs h]
      have := ih cs (by simp)
      simp only [List.length_cons]
      omega

theorem collapseWs_idem : ∀ l : List Char, collapseWs (collapseWs l) = collapseWs l := by
  refine list_length_induction _ ?_
  intro l ih
  match l with
  | [] => simp [collapseWs_nil]
  | c :: cs =>
    have hdw : (cs.dropWhile isWs).length ≤ cs.length :=
      (List.dropWhile_suffix isWs).sublist.length_le
    cases h : isWs c with
    | true =>
      rw [collapseWs_cons_pos cs h, collapseWs_cons_pos _ (by simp [isWs]),
        dropWhile_collapseWs, ih (cs.dropWhile isWs) (by simp; omega)]
    | false =>
      rw [collapseWs_cons_neg cs h, collapseWs_cons_neg _ h, ih cs (by simp)]

theorem rdropWhile_append_rtakeWhile (p : Char → Bool) (l : List Char) :
    List.rdropWhile p l ++ List.rtakeWhile p l = l := by
  rw [List.rdropWhile, List.rtakeWhile, ← List.reverse_append,
    List.takeWhile_append_dropWhile, List.reverse_reverse]

theorem collapseWs_append : ∀ (a : List Char), ∀ (x : Char) (b : List Char),
    isWs x = false →
    collapseWs (a ++ [x] ++ b) = collapseWs (a ++ [x]) ++ collapseWs b := by
  refine list_length_induction _ ?_
  intro a ih x b hx
  match a with
  | [] =>
    simp only [List.nil_append, List.singleton_append]
    rw [collapseWs_cons_neg _ hx, collapseWs_cons_neg _ hx, collapseWs_nil]
    rfl
  | c :: a2 =>
    cases h : isWs c with
    | false =>
      have e1 : (c :: a2) ++ [x] ++ b = c :: (a2 ++ [x] ++ b) := by simp
      have e2 : (c :: a2) ++ [x] = c :: (a2 ++ [x]) := by simp
      rw [e1, e2, collapseWs_cons_neg _ h, collapseWs_cons_neg _ h,
        ih a2 (by simp) x b hx, List.cons_append]
    | true =>
      have e1 : (c :: a2) ++ [x] ++ b = c :: (a2 ++ [x] ++ b) := by simp
      have e2 : (c :: a2) ++ [x] = c :: (a2 ++ [x]) := by simp
      rw [e1, e2, collapseWs_cons_pos _ h, collapseWs_cons_pos _ h]
      by_cases h2 : (a2.dropWhile isWs).isEmpty
      · rw [List.isEmpty_iff] at h2
        have e3 : a2 ++ [x] ++ b = a2 ++ (x :: b) := by simp
        have e4 : (a2 ++ (x :: b)).dropWhile isWs = x :: b := by
          rw [List.dropWhile_append, h2]
          simp [List.dropWhile_cons, hx]
        have e5 : (a2 ++ [x]).dropWhile isWs = [x] := by
          rw [List.dropWhile_append, h2]
          simp [List.dropWhile_cons, hx]
        rw [e3, e4, e5, collapseWs_cons_neg _ hx, collapseWs_cons_neg _ hx,
          collapseWs_nil]
        rfl
      · rw [List.isEmpty_iff] at h2
        have e3 : a2 ++ [x] ++ b = a2 ++ ([x] ++ b) := by simp
        have e4 : (a2 ++ ([x] ++ b)).dropWhile isWs =
            a2.dropWhile isWs ++ [x] ++ b := by
          rw [List.dropWhile_append]
          simp only [List.isEmpty_iff, h2, if_false, List.append_assoc]
        have e5 : (a2 ++ [x]).dropWhile isWs = a2.dropWhile isWs ++ [x] := by
          rw [List.dropWhile_append]
          simp only [List.isEmpty_iff, h2, if_false]
        have hlen : (a2.dropWhile isWs).length < (c :: a2).length := by
          have := (List.dropWhile_suffix (l := a2) isWs).sublist.length_le
          simp only [List.length_cons]
          omega
        rw [e3, e4, e5, ih (a2.dropWhile isWs) hlen x b hx]
        rfl

theorem collapseWs_rdropWhile {m : List Char} (hm : collapseWs m = m) :
    collapseWs (List.rdropWhile isWs m) = List.rdropWhile isWs m := by
  by_cases hnil : List.rdropWhile isWs m = []
  · rw [hnil]; exact collapseWs_nil
  · have hlast : ∃ x, (List.rdropWhile isWs m).getLast? = some x := by
      cases hh : (List.rdropWhile isWs m).getLast? with
      | none => rw [List.getLast?_eq_none_iff] at hh; exact absurd hh hnil
      | some x => exact ⟨x, rfl⟩
    obtain ⟨x, hx⟩ := hlast
    have hxw : isWs x = false := by
      have h1 := List.rdropWhile_last_not isWs m hnil
      have h2 := List.getLast?_eq_getLast (List.rdropWhile isWs m) hnil
      rw [hx] at h2
      have h3 : x = (List.rdropWhile isWs m).getLast hnil := by
        exact Option.some_injective _ h2
      rw [h3]
      exact Bool.not_eq_true _ ▸ (by simpa using h1)
    obtain ⟨a0, ha0⟩ := List.getLast?_eq_some_iff.mp hx
    have hsplit := rdropWhile_append_rtakeWhile isWs m
    rw [ha0] at hsplit
    set rt := List.rtakeWhile isWs m with hrt
    have hall : collapseWs (a0 ++ [x] ++ rt) = a0 ++ [x] ++ rt := by
      rw [hsplit]
      exact hm
    rw [collapseWs_append a0 x rt hxw] at hall
    have l1 : (collapseWs (a0 ++ [x])).length ≤ (a0 ++ [x]).length :=
      collapseWs_length_le _
    have l2 : (collapseWs rt).length ≤ rt.length := collapseWs_length_le _
    have l3 := congrArg List.length hall
    simp only [List.length_append] at l3
    have l4 : (collapseWs (a0 ++ [x])).length = (a0 ++ [x]).length := by
      simp only [List.length_append] at l1 l2 ⊢
      omega
    have := List.append_inj hall l4
    rw [ha0]
    exact this.1

theorem collapseWs_dropWhile {m : List Char} (hm : collapseWs m = m) :
    collapseWs (m.dropWhile isWs) = m.dropWhile isWs := by
  match m with
  | [] => simp [collapseWs_nil]
  | c :: cs =>
    cases h : isWs c with
    | false =>
      rw [List.dropWhile_cons]
      simp only [h, Bool.false_eq_true, if_false]
      exact hm
    | true =>
      rw [collapseWs_cons_pos cs h] at hm
      have h1 : collapseWs (cs.dropWhile isWs) = cs := by
        have := congrArg List.tail hm
        simpa using this
      rw [List.dropWhile_cons]
      simp only [h, if_true]
      have h3 := dropWhile_collapseWs cs
      rw [h1] at h3
      rw [h3, ← h1, collapseWs_idem]

theorem isWs_head_false {b : Char} {bs : List Char}
    (h : (b :: bs).dropWhile isWs = b :: bs) : isWs b = false := by
  rw [List.dropWhile_eq_self_iff] at h
  simpa using h (by simp)

theorem dropWhile_rdropWhile_eq {y : List Char} (hy : y.dropWhile isWs = y) :
    (List.rdropWhile isWs y).dropWhile isWs = List.rdropWhile isWs y := by
  cases hpre : List.rdropWhile isWs y with
  | nil => simp
  | cons a t =>
    have hp := List.rdropWhile_prefix isWs y
    rw [hpre] at hp
    obtain ⟨u, hu⟩ := hp
    have ha : isWs a = false := by
      cases y with
      | nil => simp at hu
      | cons b bs =>
        have hab : a = b := by
          have := congrArg List.head? hu
          simpa using this
        rw [hab]
        exact isWs_head_false hy
    rw [List.dropWhile_cons]
    simp [ha]

theorem trimWs_trimWs (m : List Char) : trimWs (trimWs m) = trimWs m := by
  unfold trimWs
  have hy2 : (m.dropWhile isWs).dropWhile isWs = m.dropWhile isWs :=
    List.dropWhile_idempotent isWs m
  have h3 := dropWhile_rdropWhile_eq hy2
  rw [h3, List.rdropWhile_idempotent]

theorem newlineToSpace_eq_self :
    ∀ l : List Char, '\r' ∉ l → '\n' ∉ l → newlineToSpace l = l := by
  refine list_length_induction _ ?_
  intro l ih hr hn
  match l with
  | [] => rfl
  | [c] =>
    have hc1 : ¬(c = '\r' ∨ c = '\n') := by
      rintro (rfl | rfl)
      · exact hr (by simp)
      · exact hn (by simp)
    simp [newlineToSpace, hc1]
  | c :: d :: cs =>
    have hc1 : c ≠ '\r' := fun e => hr (by simp [e])
    have hc2 : c ≠ '\n' := fun e => hn (by simp [e])
    have step : newlineToSpace (c :: d :: cs) = c :: newlineToSpace (d :: cs) := by
      simp only [newlineToSpace]
      rw [if_neg (by tauto), if_neg (by tauto)]
    rw [step, ih (d :: cs) (by simp) (fun e => hr (by simp [e]))
      (fun e => hn (by simp [e]))]

theorem cr_not_mem_collapseWs (l : List Char) : '\r' ∉ collapseWs l := by
  intro h
  have := mem_collapseWs_ws h (by decide)
  exact absurd this (by decide)

theorem lf_not_mem_collapseWs (l : List Char) : '\n' ∉ collapseWs l := by
  intro h
  have := mem_collapseWs_ws h (by decide)
  exact absurd this (by decide)

theorem trimWs_subset {x : Char} {l : List Char} (h : x ∈ trimWs l) : x ∈ l := by
  unfold trimWs at h
  have h1 := List.rdropWhile_prefix isWs (l.dropWhile isWs)
  exact (List.dropWhile_suffix isWs).subset (h1.subset h)

/-- C8: The text normalization step (collapse every run of whitespace,
including all newline variants, to a single space, then trim leading and
trailing whitespace) is idempotent: applying it to an already-normalized
string returns that string unchanged. -/
theorem c8_normalization_idempotent (s : String) :
    normalizeText (normalizeText s) = normalizeText s := by
  unfold normalizeText
  congr 1
  set m := collapseWs s.data with hmdef
  have hnl : newlineToSpace m = m := by
    refine newlineToSpace_eq_self m ?_ ?_
    · rw [hmdef]; exact cr_not_mem_collapseWs s.data
    · rw [hmdef]; exact lf_not_mem_collapseWs s.data
  show trimWs (newlineToSpace (collapseWs (trimWs (newlineToSpace m)))) = trimWs (newlineToSpace m)
  rw [hnl]
  have hm2 : collapseWs m = m := by rw [hmdef]; exact collapseWs_idem _
  have h1 : collapseWs (m.dropWhile isWs) = m.dropWhile isWs :=
    collapseWs_dropWhile hm2
  have h2 : collapseWs (trimWs m) = trimWs m := by
    unfold trimWs
    exact collapseWs_rdropWhile h1
  rw [h2]
  have h3 : newlineToSpace (trimWs m) = trimWs m := by
    refine newlineToSpace_eq_self _ (fun hc => ?_) (fun hc => ?_)
    · refine cr_not_mem_collapseWs s.data ?_
      rw [← hmdef]
      exact trimWs_subset hc
    · refine lf_not_mem_collapseWs s.data ?_
      rw [← hmdef]
      exact trimWs_subset hc
  rw [h3, trimWs_trimWs]

/-! ## Lemmas: the chunker -/

theorem chunk_base {maxSize overlap : Nat} {text : List Char}
    (h : text.length ≤ maxSize ∨ maxSize ≤ overlap) :
    chunk maxSize overlap text = [text] := by
  rw [chunk, dif_pos h]

theorem chunk_step {maxSize overlap : Nat} {text : List Char}
    (h1 : maxSize < text.length) (h2 : overlap < maxSize) :
    chunk maxSize overlap text =
      text.take maxSize :: chunk maxSize overlap (text.drop (maxSize - overlap)) := by
  rw [chunk]
  rw [dif_neg (by omega)]

theorem chunk_length_le : ∀ (text : List Char), ∀ (maxSize overlap : Nat),
    overlap < maxSize → ∀ c ∈ chunk maxSize overlap text, c.length ≤ maxSize := by
  refine list_length_induction _ ?_
  intro text ih maxSize overlap ho c hc
  by_cases hb : text.length ≤ maxSize
  · rw [chunk_base (Or.inl hb)] at hc
    simp only [List.mem_singleton] at hc
    subst hc
    exact hb
  · push_neg at hb
    rw [chunk_step hb ho] at hc
    rcases List.mem_cons.mp hc with rfl | hc2
    · simp [List.length_take]
    · refine ih (text.drop (maxSize - overlap)) ?_ maxSize overlap ho c hc2
      simp only [List.length_drop]
      omega

theorem reassembleRest_chunk : ∀ (text : List Char), ∀ (maxSize overlap : Nat),
    overlap < maxSize →
    reassembleRest overlap (chunk maxSize overlap text) = text.drop overlap := by
  refine list_length_induction _ ?_
  intro text ih maxSize overlap ho
  by_cases hb : text.length ≤ maxSize
  · rw [chunk_base (Or.inl hb)]
    simp [reassembleRest]
  · push_neg at hb
    rw [chunk_step hb ho]
    rw [reassembleRest]
    rw [ih (text.drop (maxSize - overlap)) (by simp [List.length_drop]; omega)
      maxSize overlap ho]
    have e0 : overlap + (maxSize - overlap) = maxSize := by omega
    have e1 : (text.take maxSize).drop overlap =
        (text.drop overlap).take (maxSize - overlap) := by
      rw [List.take_drop, e0]
    have e0b : maxSize - overlap + overlap = overlap + (maxSize - overlap) := by
      omega
    have e2 : (text.drop (maxSize - overlap)).drop overlap =
        (text.drop overlap).drop (maxSize - overlap) := by
      rw [List.drop_drop, List.drop_drop, e0b]
    rw [e1, e2, List.take_append_drop]

theorem reassemble_chunk (text : List Char) (maxSize overlap : Nat)
    (ho : overlap < maxSize) :
    reassemble overlap (chunk maxSize overlap text) = text := by
  by_cases hb : text.length ≤ maxSize
  · rw [chunk_base (Or.inl hb)]
    simp [reassemble, reassembleRest]
  · push_neg at hb
    rw [chunk_step hb ho, reassemble, reassembleRest_chunk _ _ _ ho,
      List.drop_drop]
    have : maxSize - overlap + overlap = maxSize := by omega
    rw [this, List.take_append_drop]

/-! ## Lemmas: decimal rendering and identifiers -/

theorem natRepr_lt (n : Nat) (h : n < 10) : natRepr n = [digitChar n] := by
  rw [natRepr, dif_pos h]

theorem natRepr_ge (n : Nat) (h : 10 ≤ n) :
    natRepr n = natRepr (n / 10) ++ [digitChar (n % 10)] := by
  rw [natRepr, dif_neg (by omega)]

theorem natRepr_ne_nil (n : Nat) : natRepr n ≠ [] := by
  by_cases h : n < 10
  · rw [natRepr_lt n h]; simp
  · rw [natRepr_ge n (by omega)]; simp

theorem digitChar_is_digit (d : Nat) (h : d < 10) :
    48 ≤ (digitChar d).toNat ∧ (digitChar d).toNat ≤ 57 := by
  interval_cases d <;> exact (by decide)

theorem digitChar_inj {a b : Nat} (ha : a < 10) (hb : b < 10)
    (h : digitChar a = digitChar b) : a = b := by
  interval_cases a <;> interval_cases b <;>
    first
    | rfl
    | exact absurd h (by decide)

theorem mem_natRepr_digit : ∀ (n : Nat), ∀ c ∈ natRepr n,
    48 ≤ c.toNat ∧ c.toNat ≤ 57 := by
  intro n
  induction n using Nat.strong_induction_on with
  | _ n ih =>
    intro c hc
    by_cases h : n < 10
    · rw [natRepr_lt n h] at hc
      simp only [List.mem_singleton] at hc
      subst hc
      exact digitChar_is_digit n h
    · rw [natRepr_ge n (by omega)] at hc
      rcases List.mem_append.mp hc with hc1 | hc2
      · exact ih (n / 10) (Nat.div_lt_self (by omega) (by omega)) c hc1
      · simp only [List.mem_singleton] at hc2
        subst hc2
        exact digitChar_is_digit _ (Nat.mod_lt _ (by omega))

theorem dash_not_mem_natRepr (n : Nat) : '-' ∉ natRepr n := by
  intro h
  exact absurd (mem_natRepr_digit n '-' h) (by decide)

theorem natRepr_inj : ∀ (a b : Nat), natRepr a = natRepr b → a = b := by
  intro a
  induction a using Nat.strong_induction_on with
  | _ a ih =>
    intro b h
    by_cases haa : a < 10 <;> by_cases hbb : b < 10
    · rw [natRepr_lt a haa, natRepr_lt b hbb] at h
      simp only [List.cons.injEq, and_true] at h
      exact digitChar_inj haa hbb h
    · rw [natRepr_lt a haa, natRepr_ge b (by omega)] at h
      have hl := congrArg List.length h
      simp only [List.length_singleton, List.length_append, List.length_cons,
        List.length_nil] at hl
      have h0 : (natRepr (b / 10)).length = 0 := by omega
      exact absurd (List.length_eq_zero.mp h0) (natRepr_ne_nil _)
    · rw [natRepr_ge a (by omega), natRepr_lt b hbb] at h
      have hl := congrArg List.length h
      simp only [List.length_singleton, List.length_append, List.length_cons,
        List.length_nil] at hl
      have h0 : (natRepr (a / 10)).length = 0 := by omega
      exact absurd (List.length_eq_zero.mp h0) (natRepr_ne_nil _)
    · rw [natRepr_ge a (by omega), natRepr_ge b (by omega)] at h
      obtain ⟨h1, h2⟩ := List.append_inj' h (by simp)
      have e1 : a / 10 = b / 10 :=
        ih (a / 10) (Nat.div_lt_self (by omega) (by omega)) _ h1
      have e2 : a % 10 = b % 10 := by
        simp only [List.cons.injEq, and_true] at h2
        exact digitChar_inj (Nat.mod_lt _ (by omega)) (Nat.mod_lt _ (by omega)) h2
      omega

theorem makeId_data (t i : Nat) :
    (makeId t i).data = "doc-".data ++ (natRepr t ++ ('-' :: natRepr i)) := by
  simp [makeId, String.data_append]

theorem append_dash_inj : ∀ (a : List Char) {b c d : List Char}, '-' ∉ a → '-' ∉ c →
    a ++ '-' :: b = c ++ '-' :: d → a = c ∧ b = d := by
  intro a
  induction a with
  | nil =>
    intro b c d _ hc h
    cases c with
    | nil =>
      simp only [List.nil_append, List.cons.injEq, true_and] at h
      exact ⟨rfl, h⟩
    | cons x cs =>
      simp only [List.nil_append, List.cons_append, List.cons.injEq] at h
      exact absurd (h.1 ▸ List.mem_cons_self x cs) (h.1 ▸ hc)
  | cons y ys ih =>
    intro b c d ha hc h
    cases c with
    | nil =>
      simp only [List.cons_append, List.nil_append, List.cons.injEq] at h
      exact absurd (h.1 ▸ List.mem_cons_self y ys) (by rw [h.1] at ha; exact ha)
    | cons x cs =>
      simp only [List.cons_append, List.cons.injEq] at h
      obtain ⟨rfl, h2⟩ := h
      have ha2 : '-' ∉ ys := fun hm => ha (List.mem_cons_of_mem _ hm)
      have hc2 : '-' ∉ cs := fun hm => hc (List.mem_cons_of_mem _ hm)
      obtain ⟨e1, e2⟩ := ih ha2 hc2 h2
      exact ⟨by rw [e1], e2⟩

theorem makeId_inj {t i u j : Nat} (h : makeId t i = makeId u j) :
    t = u ∧ i = j := by
  have hd := congrArg String.data h
  rw [makeId_data, makeId_data] at hd
  have hd2 := (List.append_inj hd rfl).2
  obtain ⟨e1, e2⟩ := append_dash_inj (natRepr t)
    (dash_not_mem_natRepr t) (dash_not_mem_natRepr u) hd2
  exact ⟨natRepr_inj _ _ e1, natRepr_inj _ _ e2⟩

/-! ## Lemmas: the upsert batch -/

theorem setValues_eq : ∀ (es : List UpsertEntry) (vs : List (List Int)),
    es.length = vs.length →
    ∃ out, setValues es vs = some out ∧
      out.map (fun e => e.id) = es.map (fun e => e.id) ∧
      out.map (fun e => e.metadata) = es.map (fun e => e.metadata) ∧
      out.map (fun e => e.values) = vs ∧
      out.length = es.length := by
  intro es
  induction es with
  | nil =>
    intro vs h
    cases vs with
    | nil => exact ⟨[], rfl, rfl, rfl, rfl, rfl⟩
    | cons v vs => simp at h
  | cons e es ih =>
    intro vs h
    cases vs with
    | nil => simp at h
    | cons v vs =>
      simp only [List.length_cons, Nat.add_right_cancel_iff] at h
      obtain ⟨rest, hrest, h1, h2, h3, h4⟩ := ih vs h
      refine ⟨{ e with values := v } :: rest, ?_, ?_, ?_, ?_, ?_⟩
      · simp [setValues, hrest]
      · simp [h1]
      · simp [h2]
      · simp [h3]
      · simp [h4]

theorem map_mapIdx {α β γ : Type} (l : List α) (f : Nat → α → β) (g : β → γ) :
    (l.mapIdx f).map g = l.mapIdx (fun i a => g (f i a)) := by
  induction l generalizing f with
  | nil => rfl
  | cons a l ih => simp only [List.mapIdx_cons, List.map_cons, ih]

theorem mapIdx_indep {α β : Type} (l : List α) (g : α → β) :
    l.mapIdx (fun _ a => g a) = l.map g := by
  induction l with
  | nil => rfl
  | cons a l ih => simp only [List.mapIdx_cons, List.map_cons, ih]

theorem nodup_mapIdx_makeId (c : Nat → Nat) (docs : List String) :
    (docs.mapIdx (fun i _ => makeId (c i) i)).Nodup := by
  rw [List.nodup_iff_injective_get]
  rintro ⟨i, hi⟩ ⟨j, hj⟩ hij
  simp only [List.get_eq_getElem, List.getElem_mapIdx] at hij
  exact Fin.ext ((makeId_inj hij).2)

theorem mapIdx_makeId_disjoint (c1 c2 : Nat → Nat) (docs1 docs2 : List String)
    (h : ∀ i j, c1 i ≠ c2 j) :
    ∀ x ∈ docs1.mapIdx (fun i _ => makeId (c1 i) i),
      x ∉ docs2.mapIdx (fun j _ => makeId (c2 j) j) := by
  intro x hx hy
  rw [List.mem_mapIdx] at hx hy
  obtain ⟨i, hi, hxi⟩ := hx
  obtain ⟨j, hj, hyj⟩ := hy
  exact h i j (makeId_inj (hxi.trans hyj.symm)).1

/-- The success path of the upload handler: when every collaborator call
succeeds and the embedding list has one entry per chunk, exactly one batch
is upserted, built by `setValues` from the id/metadata skeleton. -/
theorem uploadDocument_success (o : UploadOracles) (buffer : String)
    (data : PdfData) (docs : List String) (embs : List (List Int))
    (hE : o.extractBuffer buffer = .ok data) (hp : data.pages ≠ [])
    (hD : o.createDocuments (normalizeText (fullTextOf data)) = .ok docs)
    (hV : o.embedDocuments docs = .ok embs) (hlen : embs.length = docs.length)
    (hU : ∀ b, o.upsert b = .ok ()) :
    ∃ batch,
      uploadDocument o (some buffer) =
        ⟨200, .json [("message", "Document processed and indexed successfully.")],
         [normalizeText (fullTextOf data)], [batch]⟩ ∧
      batch.map (fun e => e.id) = docs.mapIdx (fun i _ => makeId (o.dateNow i) i) ∧
      batch.map (fun e => e.metadata) = docs.map (fun d => (⟨d⟩ : EntryMeta)) ∧
      batch.map (fun e => e.values) = embs ∧
      batch.length = docs.length := by
  have hlen2 : (docs.mapIdx (fun index doc =>
      ({ id := makeId (o.dateNow index) index, values := [],
         metadata := ⟨doc⟩ } : UpsertEntry))).length = embs.length := by
    rw [List.length_mapIdx, hlen]
  obtain ⟨batch, hbatch, h1, h2, h3, h4⟩ := setValues_eq _ embs hlen2
  refine ⟨batch, ?_, ?_, ?_, h3, ?_⟩
  · have hpos : data.pages.length > 0 := List.length_pos.mpr hp
    simp only [uploadDocument, hE, if_pos hpos, hD, hV, hbatch, hU batch]
  · rw [h1, map_mapIdx]
  · rw [h2, map_mapIdx]
    exact mapIdx_indep docs (fun d => (⟨d⟩ : EntryMeta))
  · rw [h4, List.length_mapIdx]

/-! ## Claim theorems: the answering pipeline -/

/-- C2: for every answering request with a non-blank question, if the
vector query returns zero matches, the endpoint responds 200 with the
fixed fallback answer string and the completion provider is never
invoked. -/
theorem c2_zero_matches_fallback (o : AskOracles) (q : String) (v : List Int)
    (hq : q ≠ "") (he : o.embedQuery q = .ok v) (hz : o.query v 5 = .ok []) :
    (askQuestion o (some q)).status = 200 ∧
    (askQuestion o (some q)).body = .json [("answer", fallbackAnswer)] ∧
    (askQuestion o (some q)).modelCalls = [] := by
  simp [askQuestion, hq, he, hz]

/-- C2 witness: a concrete non-blank question against an index with no
matches, instantiating `c2_zero_matches_fallback`. -/
theorem c2_witness :
    (("why" : String) ≠ "") ∧
    ((askQuestion askNoMatches (some "why")).status = 200 ∧
     (askQuestion askNoMatches (some "why")).body = .json [("answer", fallbackAnswer)] ∧
     (askQuestion askNoMatches (some "why")).modelCalls = []) :=
  ⟨by decide, c2_zero_matches_fallback askNoMatches "why" [0] (by decide) rfl rfl⟩

/-- C1: for an answering request whose vector query returns at least one
match, the context string passed to the completion provider equals exactly
the matched chunk texts (from each match metadata) joined by a blank line
in the order returned by the index, and the rendered prompt is exactly the
fixed template around this context string and the literal question. -/
theorem c1_context_and_prompt (o : AskOracles) (q : String) (v : List Int)
    (ms : List QueryMatch) (hq : q ≠ "") (he : o.embedQuery q = .ok v)
    (hm : o.query v 5 = .ok ms) (hne : ms ≠ []) :
    (askQuestion o (some q)).modelCalls =
      [renderPrompt
        (String.intercalate "\n\n" (ms.map (fun m => m.metadata.pageContent))) q] ∧
    renderPrompt
        (String.intercalate "\n\n" (ms.map (fun m => m.metadata.pageContent))) q =
      promptHead ++ String.intercalate "\n\n" (ms.map (fun m => m.metadata.pageContent)) ++
        promptMid ++ q ++ promptTail := by
  refine ⟨?_, rfl⟩
  have hlen : ¬((ms.map (fun m => RetrievedDoc.mk m.metadata.pageContent m.score)).length = 0) := by
    simp [List.length_eq_zero, hne]
  simp only [askQuestion, if_neg hq, he, hm, if_neg hlen]
  split <;> rfl

/-- C1 witness: a concrete two-match query, instantiating
`c1_context_and_prompt`. -/
theorem c1_witness :
    (("why" : String) ≠ "") ∧
    (([⟨"m1", 2, ⟨"alpha text"⟩⟩, ⟨"m2", 1, ⟨"beta text"⟩⟩] : List QueryMatch) ≠ []) ∧
    ((askQuestion askTwoMatches (some "why")).modelCalls =
      [renderPrompt
        (String.intercalate "\n\n"
          (([⟨"m1", 2, ⟨"alpha text"⟩⟩, ⟨"m2", 1, ⟨"beta text"⟩⟩] : List QueryMatch).map
            (fun m => m.metadata.pageContent))) "why"] ∧
     renderPrompt
        (String.intercalate "\n\n"
          (([⟨"m1", 2, ⟨"alpha text"⟩⟩, ⟨"m2", 1, ⟨"beta text"⟩⟩] : List QueryMatch).map
            (fun m => m.metadata.pageContent))) "why" =
      promptHead ++ String.intercalate "\n\n"
          (([⟨"m1", 2, ⟨"alpha text"⟩⟩, ⟨"m2", 1, ⟨"beta text"⟩⟩] : List QueryMatch).map
            (fun m => m.metadata.pageContent)) ++
        promptMid ++ "why" ++ promptTail) :=
  ⟨by decide, by decide,
    c1_context_and_prompt askTwoMatches "why" [1]
      [⟨"m1", 2, ⟨"alpha text"⟩⟩, ⟨"m2", 1, ⟨"beta text"⟩⟩]
      (by decide) rfl rfl (by decide)⟩

/-- C7 (amended): a missing or empty-string question is rejected with 400
before any external call; whitespace-only questions, however, pass the
code's truthiness guard and are not rejected. -/
theorem c7_blank_question_rejected (o : AskOracles) :
    (askQuestion o none).status = 400 ∧
    (askQuestion o none).embedQueryCalls = [] ∧
    (askQuestion o none).queryCalls = [] ∧
    (askQuestion o none).modelCalls = [] ∧
    (askQuestion o (some "")).status = 400 ∧
    (askQuestion o (some "")).embedQueryCalls = [] ∧
    (askQuestion o (some "")).queryCalls = [] ∧
    (askQuestion o (some "")).modelCalls = [] := by
  refine ⟨rfl, rfl, rfl, rfl, ?_, ?_, ?_, ?_⟩ <;> simp [askQuestion]

/-- C7 counterexample: the whitespace-only question consisting of one
space is not rejected with 400: the handler proceeds (here to the
no-matches 200 response) and the embedding provider and vector index are
both called. -/
theorem c7_counterexample :
    (askQuestion askNoMatches (some " ")).status = 200 ∧
    (askQuestion askNoMatches (some " ")).embedQueryCalls = [" "] ∧
    (askQuestion askNoMatches (some " ")).queryCalls = [([0], 5)] := by
  refine ⟨rfl, rfl, rfl⟩

/-! ## Claim theorems: the ingestion pipeline -/

/-- C10: for every ingestion request, if PDF extraction (including the
no-pages throw), chunking, or the batch embedding call fails, the vector
index upsert is never invoked and the endpoint responds 500 with an error
message. -/
theorem c10_failure_no_upsert (o : UploadOracles) (buffer : String) :
    (∀ e, o.extractBuffer buffer = .error e →
      (uploadDocument o (some buffer)).status = 500 ∧
      (uploadDocument o (some buffer)).upsertCalls = [] ∧
      (uploadDocument o (some buffer)).body = uploadErr e) ∧
    (∀ data, o.extractBuffer buffer = .ok data → data.pages = [] →
      (uploadDocument o (some buffer)).status = 500 ∧
      (uploadDocument o (some buffer)).upsertCalls = [] ∧
      (uploadDocument o (some buffer)).body =
        uploadErr "No text found in PDF or PDF parsing failed.") ∧
    (∀ data e, o.extractBuffer buffer = .ok data → data.pages ≠ [] →
      o.createDocuments (normalizeText (fullTextOf data)) = .error e →
      (uploadDocument o (some buffer)).status = 500 ∧
      (uploadDocument o (some buffer)).upsertCalls = [] ∧
      (uploadDocument o (some buffer)).body = uploadErr e) ∧
    (∀ data docs e, o.extractBuffer buffer = .ok data → data.pages ≠ [] →
      o.createDocuments (normalizeText (fullTextOf data)) = .ok docs →
      o.embedDocuments docs = .error e →
      (uploadDocument o (some buffer)).status = 500 ∧
      (uploadDocument o (some buffer)).upsertCalls = [] ∧
      (uploadDocument o (some buffer)).body = uploadErr e) := by
  refine ⟨?_, ?_, ?_, ?_⟩
  · intro e hE
    simp [uploadDocument, hE]
  · intro data hE hpages
    simp [uploadDocument, hE, hpages]
  · intro data e hE hp hD
    have hpos : data.pages.length > 0 := List.length_pos.mpr hp
    simp [uploadDocument, hE, if_pos hpos, hD]
  · intro data docs e hE hp hD hV
    have hpos : data.pages.length > 0 := List.length_pos.mpr hp
    simp [uploadDocument, hE, if_pos hpos, hD, hV]

/-- C10 witness: a failing extractor, instantiating the first branch of
`c10_failure_no_upsert`. -/
theorem c10_witness :
    (uploadDocument uploadExtractFail (some "x")).status = 500 ∧
    (uploadDocument uploadExtractFail (some "x")).upsertCalls = [] ∧
    (uploadDocument uploadExtractFail (some "x")).body = uploadErr "bad xref" :=
  (c10_failure_no_upsert uploadExtractFail "x").1 "bad xref" rfl

/-- C9 (amended): every 200 and 500 response produced by either handler is
a single-field JSON body carrying a message; the two 400 responses (missing
document field, missing/empty question), however, are plain-text bodies
sent with `res.send`, not JSON. -/
theorem c9_response_shapes :
    (∀ (o : UploadOracles) (file : Option String),
      wellFormedResponse (uploadDocument o file).status (uploadDocument o file).body) ∧
    (∀ (o : AskOracles) (q : Option String),
      wellFormedResponse (askQuestion o q).status (askQuestion o q).body) := by
  constructor
  · intro o file
    unfold wellFormedResponse
    cases file with
    | none => exact Or.inl ⟨rfl, _, rfl⟩
    | some buffer =>
      simp only [uploadDocument]
      repeat'
        first
        | exact Or.inl ⟨rfl, _, rfl⟩
        | exact Or.inr ⟨Or.inl rfl, _, _, rfl⟩
        | exact Or.inr ⟨Or.inr rfl, _, _, rfl⟩
        | split
  · intro o q
    unfold wellFormedResponse
    cases q with
    | none => exact Or.inl ⟨rfl, _, rfl⟩
    | some s =>
      simp only [askQuestion]
      repeat'
        first
        | exact Or.inl ⟨rfl, _, rfl⟩
        | exact Or.inr ⟨Or.inl rfl, _, _, rfl⟩
        | exact Or.inr ⟨Or.inr rfl, _, _, rfl⟩
        | split

/-- C9 counterexample: the missing-document-field response is a 400 whose
body is the plain-text string sent by `res.send`, not a JSON body. -/
theorem c9_counterexample :
    (uploadDocument uploadHello none).status = 400 ∧
    (uploadDocument uploadHello none).body = Body.text "No document uploaded." ∧
    (uploadDocument uploadHello none).body.isJson = false :=
  ⟨rfl, rfl, rfl⟩

/-- C3 (amended): the ingestion pipeline fails before chunking only when
extraction yields zero pages; empty or whitespace-only text coming from a
non-empty page list is not rejected: the chunker is invoked on the empty
normalized string and no error is signalled before chunking. -/
theorem c3_whitespace_not_rejected (o : UploadOracles) (buffer : String)
    (data : PdfData) (hE : o.extractBuffer buffer = .ok data) :
    (data.pages = [] →
      (uploadDocument o (some buffer)).status = 500 ∧
      (uploadDocument o (some buffer)).createDocumentsCalls = []) ∧
    (data.pages ≠ [] → normalizeText (fullTextOf data) = "" →
      (uploadDocument o (some buffer)).createDocumentsCalls = [""]) := by
  constructor
  · intro hpages
    simp [uploadDocument, hE, hpages]
  · intro hp hws
    have hpos : data.pages.length > 0 := List.length_pos.mpr hp
    simp only [uploadDocument, hE, if_pos hpos, hws]
    repeat'
      first
      | rfl
      | split

/-- C3 counterexample: a one-page document whose only content item is a
single space.  The request is not rejected before chunking: the splitter
is invoked on the empty normalized text, and (with the splitter returning
zero chunks for empty input, as the library does) the request completes
with 200 and an empty upsert batch, instead of failing with a
NoContentExtracted error. -/
theorem c3_counterexample :
    (uploadDocument uploadBlankPage (some "f")).status = 200 ∧
    (uploadDocument uploadBlankPage (some "f")).createDocumentsCalls = [""] ∧
    (uploadDocument uploadBlankPage (some "f")).upsertCalls = [[]] :=
  ⟨rfl, rfl, rfl⟩

/-- C3 witness: instantiating `c3_whitespace_not_rejected` on the
whitespace-only one-page document. -/
theorem c3_witness :
    ((⟨[⟨[⟨" "⟩]⟩]⟩ : PdfData).pages ≠ []) ∧
    normalizeText (fullTextOf (⟨[⟨[⟨" "⟩]⟩]⟩ : PdfData)) = "" ∧
    (uploadDocument uploadBlankPage (some "f")).createDocumentsCalls = [""] :=
  ⟨by decide, rfl,
    (c3_whitespace_not_rejected uploadBlankPage "f" ⟨[⟨[⟨" "⟩]⟩]⟩ rfl).2
      (by decide) rfl⟩

/-- C4 (amended): an ingestion yielding N chunks upserts exactly one batch
of exactly N entries, each entry carrying its chunk's exact original text
in its metadata, with identifiers pairwise distinct within the batch; and
identifiers of two ingestions are disjoint whenever the millisecond
timestamps observed by the two requests are disjoint.  (The original
claim's unconditional uniqueness across repeated ingestions fails: two
ingestions observing the same millisecond collide, see the
counterexample.) -/
theorem c4_upsert_batch (o : UploadOracles) (buffer : String)
    (data : PdfData) (docs : List String) (embs : List (List Int))
    (hE : o.extractBuffer buffer = .ok data) (hp : data.pages ≠ [])
    (hD : o.createDocuments (normalizeText (fullTextOf data)) = .ok docs)
    (hV : o.embedDocuments docs = .ok embs) (hlen : embs.length = docs.length)
    (hU : ∀ b, o.upsert b = .ok ()) :
    ∃ batch,
      (uploadDocument o (some buffer)).upsertCalls = [batch] ∧
      batch.length = docs.length ∧
      batch.map (fun e => e.metadata) = docs.map (fun d => (⟨d⟩ : EntryMeta)) ∧
      (batch.map (fun e => e.id)).Nodup ∧
      (∀ (o2 : UploadOracles) (buffer2 : String) (data2 : PdfData)
          (docs2 : List String) (embs2 : List (List Int)),
        o2.extractBuffer buffer2 = .ok data2 → data2.pages ≠ [] →
        o2.createDocuments (normalizeText (fullTextOf data2)) = .ok docs2 →
        o2.embedDocuments docs2 = .ok embs2 → embs2.length = docs2.length →
        (∀ b, o2.upsert b = .ok ()) →
        (∀ i j, o.dateNow i ≠ o2.dateNow j) →
        ∃ batch2, (uploadDocument o2 (some buffer2)).upsertCalls = [batch2] ∧
          ∀ x ∈ batch.map (fun e => e.id), x ∉ batch2.map (fun e => e.id)) := by
  obtain ⟨batch, hres, hid, hmeta, hvals, hlenb⟩ :=
    uploadDocument_success o buffer data docs embs hE hp hD hV hlen hU
  refine ⟨batch, by rw [hres], hlenb, hmeta, ?_, ?_⟩
  · rw [hid]
    exact nodup_mapIdx_makeId _ _
  · intro o2 buffer2 data2 docs2 embs2 hE2 hp2 hD2 hV2 hlen2 hU2 hdj
    obtain ⟨batch2, hres2, hid2, -, -, -⟩ :=
      uploadDocument_success o2 buffer2 data2 docs2 embs2 hE2 hp2 hD2 hV2 hlen2 hU2
    refine ⟨batch2, by rw [hres2], ?_⟩
    rw [hid, hid2]
    exact mapIdx_makeId_disjoint _ _ _ _ hdj

/-- C4 witness: a two-chunk ingestion, instantiating `c4_upsert_batch`. -/
theorem c4_witness :
    (([[0], [1]] : List (List Int)).length =
      (["hello world", "hello world"] : List String).length) ∧
    (∃ batch,
      (uploadDocument uploadTwoChunks (some "x")).upsertCalls = [batch] ∧
      batch.length = (["hello world", "hello world"] : List String).length ∧
      batch.map (fun e => e.metadata) =
        (["hello world", "hello world"] : List String).map
          (fun d => (⟨d⟩ : EntryMeta)) ∧
      (batch.map (fun e => e.id)).Nodup ∧
      (∀ (o2 : UploadOracles) (buffer2 : String) (data2 : PdfData)
          (docs2 : List String) (embs2 : List (List Int)),
        o2.extractBuffer buffer2 = .ok data2 → data2.pages ≠ [] →
        o2.createDocuments (normalizeText (fullTextOf data2)) = .ok docs2 →
        o2.embedDocuments docs2 = .ok embs2 → embs2.length = docs2.length →
        (∀ b, o2.upsert b = .ok ()) →
        (∀ i j, uploadTwoChunks.dateNow i ≠ o2.dateNow j) →
        ∃ batch2, (uploadDocument o2 (some buffer2)).upsertCalls = [batch2] ∧
          ∀ x ∈ batch.map (fun e => e.id), x ∉ batch2.map (fun e => e.id))) :=
  ⟨rfl, c4_upsert_batch uploadTwoChunks "x" ⟨[⟨[⟨"hello"⟩, ⟨"world"⟩]⟩]⟩
    ["hello world", "hello world"] [[0], [1]] rfl (by decide) rfl rfl rfl
    (fun _ => rfl)⟩

/-- C4 counterexample: two ingestions of two different documents whose
requests observe the same millisecond timestamp 7 both produce the entry
identifier doc-7-0: identifiers are not unique across repeated ingestions
into the same index. -/
theorem c4_counterexample :
    (uploadDocument uploadHello (some "a")).upsertCalls.map
      (fun b => b.map (fun e => e.id)) = [[makeId 7 0]] ∧
    (uploadDocument uploadWorld (some "b")).upsertCalls.map
      (fun b => b.map (fun e => e.id)) = [[makeId 7 0]] ∧
    makeId 7 0 = "doc-7-0" ∧
    (uploadDocument uploadHello (some "a")).upsertCalls.map
      (fun b => b.map (fun e => e.metadata)) = [[⟨"hello"⟩]] ∧
    (uploadDocument uploadWorld (some "b")).upsertCalls.map
      (fun b => b.map (fun e => e.metadata)) = [[⟨"world"⟩]] := by
  refine ⟨rfl, rfl, ?_, rfl, rfl⟩
  show ("doc-" ++ (⟨natRepr 7⟩ : String) ++ "-" ++ (⟨natRepr 0⟩ : String)) = "doc-7-0"
  rw [natRepr_lt 7 (by omega), natRepr_lt 0 (by omega)]
  rfl

/-- C6: for every ingestion, the embedding stored in upserted entry i is
exactly the embedding returned for the i-th submitted chunk text — the
batch embedding results are matched positionally one-to-one to the
submitted chunk texts. -/
theorem c6_positional_embeddings (o : UploadOracles) (buffer : String)
    (data : PdfData) (docs : List String) (embs : List (List Int))
    (hE : o.extractBuffer buffer = .ok data) (hp : data.pages ≠ [])
    (hD : o.createDocuments (normalizeText (fullTextOf data)) = .ok docs)
    (hV : o.embedDocuments docs = .ok embs) (hlen : embs.length = docs.length)
    (hU : ∀ b, o.upsert b = .ok ()) :
    ∃ batch,
      (uploadDocument o (some buffer)).upsertCalls = [batch] ∧
      batch.map (fun e => e.values) = embs ∧
      batch.map (fun e => e.metadata) = docs.map (fun d => (⟨d⟩ : EntryMeta)) := by
  obtain ⟨batch, hres, -, hmeta, hvals, -⟩ :=
    uploadDocument_success o buffer data docs embs hE hp hD hV hlen hU
  exact ⟨batch, by rw [hres], hvals, hmeta⟩

/-- C6 witness: a two-chunk ingestion with positionally distinct
embeddings, instantiating `c6_positional_embeddings`. -/
theorem c6_witness :
    (([[0], [1]] : List (List Int)).length =
      (["hello world", "hello world"] : List String).length) ∧
    (∃ batch,
      (uploadDocument uploadTwoChunks (some "y")).upsertCalls = [batch] ∧
      batch.map (fun e => e.values) = ([[0], [1]] : List (List Int)) ∧
      batch.map (fun e => e.metadata) =
        (["hello world", "hello world"] : List String).map
          (fun d => (⟨d⟩ : EntryMeta))) :=
  ⟨rfl, c6_positional_embeddings uploadTwoChunks "y" ⟨[⟨[⟨"hello"⟩, ⟨"world"⟩]⟩]⟩
    ["hello world", "hello world"] [[0], [1]] rfl (by decide) rfl rfl rfl
    (fun _ => rfl)⟩

/-- C5: for maxSize > overlap (as the configured 1000 > 200), every chunk
produced by the chunker on the normalized text has length ≤ maxSize, and
concatenating the chunks with the overlap between consecutive chunks
removed reconstructs the normalized input text exactly. -/
theorem c5_chunk_bound_and_reconstruction (s : String) (maxSize overlap : Nat)
    (h : overlap < maxSize) :
    (∀ c ∈ chunk maxSize overlap (normalizeText s).data, c.length ≤ maxSize) ∧
    reassemble overlap (chunk maxSize overlap (normalizeText s).data) =
      (normalizeText s).data :=
  ⟨chunk_length_le (normalizeText s).data maxSize overlap h,
   reassemble_chunk (normalizeText s).data maxSize overlap h⟩

/-- C5 witness: the configured sizes 1000 and 200 on a concrete input,
instantiating `c5_chunk_bound_and_reconstruction`. -/
theorem c5_witness :
    200 < 1000 ∧
    ((∀ c ∈ chunk 1000 200 (normalizeText "alpha beta gamma").data,
        c.length ≤ 1000) ∧
     reassemble 200 (chunk 1000 200 (normalizeText "alpha beta gamma").data) =
       (normalizeText "alpha beta gamma").data) :=
  ⟨by omega, c5_chunk_bound_and_reconstruction "alpha beta gamma" 1000 200 (by omega)⟩

end RagOA
